import Mathlib

/-!
# AnimacaoSprites: sprite animation and movement

A shallow embedding of `src/AnimacaoSprites.cpp`: the data members of
`class Sprite`, `Sprite::update`, the texture-coordinate part of
`Sprite::draw`, and the keyboard block of the render loop in `main`.

The C++ type `float` is a type parameter `F`.  Every definition asks of `F`
only the operations the corresponding source lines use, so a property proved
for all `F` holds whatever the arithmetic does.  Two arithmetics instantiate
`F`: the exact rationals `ℚ`, and `F32`, IEEE 754 binary32 with rounding to
nearest, ties to even (every `float` expression of the source is a single
operation on `float` operands stored to a `float`).

`int` members are `Int`.  The only `int` arithmetic of the source is
`(frame.x + 1) % maxFrames`; `%` is `Int.tmod`, the truncated remainder of C++.
On the states the render loop reaches, `0 ≤ frame.x < maxFrames = 4`, it neither
overflows nor divides by zero.
-/

namespace AnimacaoSprites

/-- The type `glm::vec2`: two `float` components. -/
structure Vec2 (F : Type) where
  x : F
  y : F
  deriving DecidableEq, Repr

/-- The type `glm::ivec2`: two `int` components. -/
structure IVec2 where
  x : Int
  y : Int
  deriving DecidableEq, Repr

/-- The data members of `class Sprite`, in declaration order. -/
structure Sprite (F : Type) where
  texture : Nat
  position : Vec2 F
  frame : IVec2
  maxFrames : Int
  frameTime : F
  timer : F
  direction : Int
  moving : Bool
  deriving DecidableEq, Repr

/-- The keyboard state read by the four `glfwGetKey(...) == GLFW_PRESS` tests of
one loop iteration: `keyA` is left, `keyD` right, `keyW` up, `keyS` down. -/
structure Keys where
  keyA : Bool
  keyD : Bool
  keyW : Bool
  keyS : Bool
  deriving DecidableEq, Repr

/-! ## IEEE 754 binary32

The values of the C++ type `float` and the operations that `Sprite::update` and
the keyboard block apply to them, rounding to nearest with ties to even.  The
two zeros are one value: that code only adds, subtracts, multiplies and compares
floats, and none of these tells the zeros apart. -/

/-- A binary32 datum: a NaN, an infinity with its sign, or a finite number.
The operations below only produce finite numbers that binary32 represents. -/
inductive F32 where
  | nan : F32
  | inf (negative : Bool) : F32
  | fin (value : ℚ) : F32
  deriving DecidableEq, Repr

namespace F32

/-- The power `2 ^ k` for an integer `k`. -/
def pow2 (k : Int) : ℚ :=
  if 0 ≤ k then ((2 ^ k.toNat : Nat) : ℚ) else 1 / ((2 ^ (-k).toNat : Nat) : ℚ)

/-- The number of times `n` can be halved before it drops below 2, trying at
most `fuel` times. -/
def halvings : Nat → Nat → Nat
  | 0, _ => 0
  | fuel + 1, n => if n < 2 then 0 else halvings fuel (n / 2) + 1

/-- The position of the leading binary digit of `n`: `2 ^ bitLog n ≤ n < 2 ^ (bitLog n + 1)`
for `0 < n`. -/
def bitLog (n : Nat) : Nat :=
  halvings n n

/-- The integer `e` with `2 ^ e ≤ |q| < 2 ^ (e + 1)`, for `q ≠ 0`: the leading
digits of numerator and denominator give it up to one, and the comparison
settles which. -/
def floorLog2 (q : ℚ) : Int :=
  let k : Int := (bitLog q.num.natAbs : Int) - (bitLog q.den : Int)
  if pow2 k ≤ |q| then k else k - 1

/-- The distance between neighbouring binary32 numbers around `q`: 24 significant
bits, and `2 ^ (-149)` below the smallest normal number `2 ^ (-126)`. -/
def ulp (q : ℚ) : ℚ :=
  pow2 (max (floorLog2 q) (-126) - 23)

/-- The integer nearest to `x`, the even one when two are equally near. -/
def roundNearestEven (x : ℚ) : Int :=
  let n : Int := ⌊x⌋
  let r : ℚ := x - n
  if r < 1 / 2 then n
  else if 1 / 2 < r then n + 1
  else if n % 2 = 0 then n
  else n + 1

/-- The binary32 datum a real result `q` is rounded to: the nearest multiple of
`ulp q`, or an infinity when that exceeds the largest finite number. -/
def round (q : ℚ) : F32 :=
  if q = 0 then fin 0
  else
    let r : ℚ := (roundNearestEven (q / ulp q) : ℚ) * ulp q
    if pow2 128 ≤ |r| then inf (decide (q < 0)) else fin r

/-- The sum `a + b` in binary32. -/
def add : F32 → F32 → F32
  | nan, _ => nan
  | _, nan => nan
  | inf s, inf t => if s = t then inf s else nan
  | inf s, fin _ => inf s
  | fin _, inf t => inf t
  | fin a, fin b => round (a + b)

/-- The negation `-a` in binary32. -/
def neg : F32 → F32
  | nan => nan
  | inf s => inf (!s)
  | fin a => fin (-a)

/-- The product `a * b` in binary32. -/
def mul : F32 → F32 → F32
  | nan, _ => nan
  | _, nan => nan
  | inf s, inf t => inf (xor s t)
  | inf s, fin b => if b = 0 then nan else inf (xor s (decide (b < 0)))
  | fin a, inf t => if a = 0 then nan else inf (xor (decide (a < 0)) t)
  | fin a, fin b => round (a * b)

/-- The comparison `a <= b` in binary32: false when either side is a NaN. -/
def le : F32 → F32 → Bool
  | nan, _ => false
  | _, nan => false
  | inf s, inf t => s || !t
  | inf s, fin _ => s
  | fin _, inf t => !t
  | fin a, fin b => decide (a ≤ b)

/-- The comparison `a < b` in binary32: false when either side is a NaN. -/
def lt : F32 → F32 → Bool
  | nan, _ => false
  | _, nan => false
  | inf s, inf t => s && !t
  | inf s, fin _ => s
  | fin _, inf t => !t
  | fin a, fin b => decide (a < b)

instance : Zero F32 := ⟨fin 0⟩
instance : Add F32 := ⟨add⟩
instance : Neg F32 := ⟨neg⟩
instance : Sub F32 := ⟨fun a b => add a (neg b)⟩
instance : Mul F32 := ⟨mul⟩
instance : LE F32 := ⟨fun a b => le a b = true⟩
instance : LT F32 := ⟨fun a b => lt a b = true⟩
instance (a b : F32) : Decidable (a ≤ b) := inferInstanceAs (Decidable (le a b = true))
instance (a b : F32) : Decidable (a < b) := inferInstanceAs (Decidable (lt a b = true))

/-- The decimal number a literal denotes: `m * 10 ^ e`, or `m / 10 ^ e` when the
literal has `e` digits after the point. -/
def decimal (m : Nat) (fraction : Bool) (e : Nat) : ℚ :=
  if fraction then (m : ℚ) / ((10 ^ e : Nat) : ℚ) else ((m * 10 ^ e : Nat) : ℚ)

/-- A decimal literal with suffix `f`: the decimal number, rounded. -/
instance : OfScientific F32 := ⟨fun m s e => round (decimal m s e)⟩

end F32

/-- The facts about `float` addition and comparison that bound the timer: zero
compares equal to itself, a sum of two non-negative values is non-negative, two
values of which neither is a NaN are comparable, and the literal `0.15f` is
positive.  They hold in exact arithmetic and in binary32 (`floatOrder_rat`,
`F32.floatOrder`). -/
structure FloatOrder (F : Type) [Zero F] [Add F] [LE F] [LT F] [OfScientific F] : Prop where
  zero_le_zero : (0 : F) ≤ 0
  add_nonneg : ∀ a b : F, 0 ≤ a → 0 ≤ b → 0 ≤ a + b
  lt_of_not_le : ∀ a b : F, 0 ≤ a → 0 < b → ¬ b ≤ a → a < b
  frameTime_pos : (0 : F) < 0.15

section Construct
variable {F : Type} [Zero F] [OfScientific F]

/-- The constructor `Sprite(GLuint tex, glm::vec2 pos)` together with the default
member initialisers: `frame = {0, 0}`, `maxFrames = 4`, `frameTime = 0.15f`,
`timer = 0.0f`, `direction = 0`, `moving = false`. -/
def Sprite.ctor (tex : Nat) (pos : Vec2 F) : Sprite F :=
  { texture := tex
    position := pos
    frame := { x := 0, y := 0 }
    maxFrames := 4
    frameTime := 0.15
    timer := 0
    direction := 0
    moving := false }

/-- The state the timer scenario starts from: `s` with `frameTime = 0.15f`, an
empty timer and `moving` set. -/
def Sprite.scenarioStart (s : Sprite F) : Sprite F :=
  { s with frameTime := 0.15, timer := 0, moving := true }

end Construct

section Update
variable {F : Type} [Zero F] [Add F] [LE F] [∀ a b : F, Decidable (a ≤ b)]

/-- The method `Sprite::update(float deltaTime)`.  The test `timer >= frameTime`
reads the timer after `timer += deltaTime`. -/
def Sprite.update (s : Sprite F) (deltaTime : F) : Sprite F :=
  if s.moving then
    let s1 := { s with timer := s.timer + deltaTime }
    if s1.timer ≥ s1.frameTime then
      { s1 with timer := 0, frame := { s1.frame with x := Int.tmod (s1.frame.x + 1) s1.maxFrames } }
    else
      s1
  else
    { s with frame := { s.frame with x := 0 }, timer := 0 }

/-- The sprite after `n` consecutive calls `update(deltaTime)`. -/
def Sprite.updates (s : Sprite F) (deltaTime : F) : Nat → Sprite F
  | 0 => s
  | n + 1 => (Sprite.updates s deltaTime n).update deltaTime

end Update

/-- One pass of the loop body of `Sprite::draw`:
`vertices[i * 5 + 3] = texCoords[i * 2]; vertices[i * 5 + 4] = texCoords[i * 2 + 1];`. -/
def drawStep {F : Type} (texCoords : Fin 8 → F) (vertices : Fin 20 → F) (i : Fin 4) : Fin 20 → F :=
  let vertices1 := Function.update vertices ⟨i.val * 5 + 3, by omega⟩ (texCoords ⟨i.val * 2, by omega⟩)
  Function.update vertices1 ⟨i.val * 5 + 4, by omega⟩ (texCoords ⟨i.val * 2 + 1, by omega⟩)

section Draw
variable {F : Type} [OfScientific F] [Add F] [Mul F] [Div F] [IntCast F]

/-- The local array `texCoords` of `Sprite::draw`: eight floats, computed from
`texSize = 1.0f / 4.0f`, `u = frame.x * texSize` and `v = frame.y * texSize`
(the `int` operand is converted to `float`). -/
def Sprite.texCoords (s : Sprite F) : Fin 8 → F :=
  let texSize : F := 1.0 / 4.0
  let u : F := (s.frame.x : F) * texSize
  let v : F := (s.frame.y : F) * texSize
  ![u, v + texSize,
    u + texSize, v + texSize,
    u + texSize, v,
    u, v]

/-- The part of `Sprite::draw` that rewrites the caller's vertex buffer (20
floats: four vertices of three position and two texture components): the loop
`for (int i = 0; i < 4; ++i)` over `drawStep`.  The OpenGL calls that follow
read the buffer and the sprite and change neither. -/
def Sprite.draw (s : Sprite F) (vertices : Fin 20 → F) : Fin 20 → F :=
  (List.finRange 4).foldl (drawStep s.texCoords) vertices

end Draw

section Loop
variable {F : Type} [Add F] [Sub F] [Mul F]

/-- The keyboard block of the render loop in `main`: `vampiro.moving = false`
followed by the four `if (glfwGetKey(...) == GLFW_PRESS)` statements, in source
order A, D, W, S. -/
def mainInput (speed deltaTime : F) (keys : Keys) (vampiro : Sprite F) : Sprite F :=
  let v0 := { vampiro with moving := false }
  let v1 :=
    if keys.keyA then
      { v0 with
        position := { v0.position with x := v0.position.x - speed * deltaTime }
        frame := { v0.frame with y := 1 }
        moving := true }
    else v0
  let v2 :=
    if keys.keyD then
      { v1 with
        position := { v1.position with x := v1.position.x + speed * deltaTime }
        frame := { v1.frame with y := 0 }
        moving := true }
    else v1
  let v3 :=
    if keys.keyW then
      { v2 with
        position := { v2.position with y := v2.position.y + speed * deltaTime }
        frame := { v2.frame with y := 2 }
        moving := true }
    else v2
  if keys.keyS then
    { v3 with
      position := { v3.position with y := v3.position.y - speed * deltaTime }
      frame := { v3.frame with y := 3 }
      moving := true }
  else v3

variable [Zero F] [LE F] [∀ a b : F, Decidable (a ≤ b)]

/-- The sprite-changing part of one iteration of the render loop in `main`: the
keyboard block, then `vampiro.update(deltaTime)`. -/
def mainIteration (speed : F) (vampiro : Sprite F) (input : Keys × F) : Sprite F :=
  (mainInput speed input.2 input.1 vampiro).update input.2

/-- The sprite after the render loop has run once for every element of `inputs`
(the keys held and the `deltaTime` measured in that iteration). -/
def mainLoop (speed : F) (vampiro : Sprite F) (inputs : List (Keys × F)) : Sprite F :=
  inputs.foldl (mainIteration speed) vampiro

end Loop

/-! ## Sample states -/

/-- A walking sprite in exact arithmetic, on the last frame of its row and 0.10 s
into that frame. -/
def sampleWalking : Sprite ℚ :=
  { texture := 1, position := ⟨368, 268⟩, frame := ⟨3, 1⟩, maxFrames := 4,
    frameTime := 3 / 20, timer := 1 / 10, direction := 0, moving := true }

/-- A sprite in exact arithmetic whose `moving` flag is clear while it still shows
frame 2 of row 3 with 0.10 s on its timer. -/
def sampleIdle : Sprite ℚ :=
  { texture := 1, position := ⟨368, 268⟩, frame := ⟨2, 3⟩, maxFrames := 4,
    frameTime := 3 / 20, timer := 1 / 10, direction := 0, moving := false }

/-- A walking sprite in binary32, as the loop leaves it after two 0.05 s frames:
`frameTime = 0.15f` and 0.10 s on the timer. -/
def sampleBinary32 : Sprite F32 :=
  { texture := 1, position := ⟨0, 0⟩, frame := ⟨3, 1⟩, maxFrames := 4,
    frameTime := 0.15, timer := 0.1, direction := 0, moving := true }

end AnimacaoSprites

namespace AnimacaoSprites

/-! ## The binary32 model: rounding -/

namespace F32

theorem pow2_pos (k : Int) : 0 < pow2 k := by
  unfold pow2
  split <;> positivity

theorem ulp_pos (q : ℚ) : 0 < ulp q :=
  pow2_pos _

theorem halvings_spec (fuel : Nat) : ∀ n : Nat, 0 < n → n < 2 ^ fuel →
    2 ^ halvings fuel n ≤ n ∧ n < 2 ^ (halvings fuel n + 1) := by
  induction fuel with
  | zero =>
    intro n hpos hlt
    simp at hlt
    omega
  | succ fuel ih =>
    intro n hpos hlt
    unfold halvings
    split_ifs with h2
    · have : n = 1 := by omega
      subst this
      simp
    · have hhalf : n / 2 < 2 ^ fuel := by
        rw [Nat.div_lt_iff_lt_mul (by norm_num)]
        rw [pow_succ] at hlt
        exact hlt
      have hrec := ih (n / 2) (by omega) hhalf
      constructor
      · rw [pow_succ]
        have := hrec.1
        omega
      · rw [pow_succ]
        have := hrec.2
        omega

/-- The leading digit `bitLog n` brackets `n` between consecutive powers of two. -/
theorem bitLog_spec (n : Nat) (hpos : 0 < n) :
    2 ^ bitLog n ≤ n ∧ n < 2 ^ (bitLog n + 1) :=
  halvings_spec n n hpos (Nat.lt_two_pow n)

theorem pow2_eq_zpow (k : Int) : pow2 k = (2 : ℚ) ^ k := by
  unfold pow2
  split_ifs with h
  · obtain ⟨n, rfl⟩ := Int.eq_ofNat_of_zero_le h
    simp
  · obtain ⟨n, hn⟩ := Int.eq_ofNat_of_zero_le (show 0 ≤ -k by omega)
    have hk : k = -(n : Int) := by omega
    subst hk
    simp


theorem abs_eq_natAbs_div (q : ℚ) : |q| = ((q.num.natAbs : ℕ) : ℚ) / (q.den : ℚ) := by
  conv_lhs => rw [← Rat.num_div_den q]
  rw [abs_div, Nat.abs_cast, ← Int.cast_abs, ← Int.natCast_natAbs, Int.cast_natCast]

/-- The exponent `floorLog2 q` brackets `|q|` between consecutive powers of two. -/
theorem floorLog2_spec (q : ℚ) (hq : q ≠ 0) :
    (2 : ℚ) ^ floorLog2 q ≤ |q| ∧ |q| < (2 : ℚ) ^ (floorLog2 q + 1) := by
  have hN := bitLog_spec q.num.natAbs (Int.natAbs_pos.mpr (Rat.num_ne_zero.mpr hq))
  have hD := bitLog_spec q.den q.den_pos
  have hN1 : (2 : ℚ) ^ (bitLog q.num.natAbs : Int) ≤ (q.num.natAbs : ℚ) := by
    rw [zpow_natCast]
    exact_mod_cast hN.1
  have hN2 : (q.num.natAbs : ℚ) < (2 : ℚ) ^ ((bitLog q.num.natAbs : Int) + 1) := by
    rw [show ((bitLog q.num.natAbs : Int) + 1) = ((bitLog q.num.natAbs + 1 : ℕ) : Int) by simp,
      zpow_natCast]
    exact_mod_cast hN.2
  have hD1 : (2 : ℚ) ^ (bitLog q.den : Int) ≤ (q.den : ℚ) := by
    rw [zpow_natCast]
    exact_mod_cast hD.1
  have hD2 : (q.den : ℚ) < (2 : ℚ) ^ ((bitLog q.den : Int) + 1) := by
    rw [show ((bitLog q.den : Int) + 1) = ((bitLog q.den + 1 : ℕ) : Int) by simp, zpow_natCast]
    exact_mod_cast hD.2
  have hDpos : (0 : ℚ) < (q.den : ℚ) := by exact_mod_cast q.den_pos
  have h2 : (2 : ℚ) ≠ 0 := by norm_num
  have hlow : (2 : ℚ) ^ ((bitLog q.num.natAbs : Int) - (bitLog q.den : Int) - 1) ≤ |q| := by
    rw [abs_eq_natAbs_div, le_div_iff₀ hDpos]
    calc (2 : ℚ) ^ ((bitLog q.num.natAbs : Int) - (bitLog q.den : Int) - 1) * (q.den : ℚ)
        ≤ (2 : ℚ) ^ ((bitLog q.num.natAbs : Int) - (bitLog q.den : Int) - 1) *
            (2 : ℚ) ^ ((bitLog q.den : Int) + 1) :=
          mul_le_mul_of_nonneg_left hD2.le (by positivity)
      _ = (2 : ℚ) ^ (bitLog q.num.natAbs : Int) := by
          rw [← zpow_add₀ h2]
          congr 1
          ring
      _ ≤ (q.num.natAbs : ℚ) := hN1
  have hhigh : |q| < (2 : ℚ) ^ ((bitLog q.num.natAbs : Int) - (bitLog q.den : Int) + 1) := by
    rw [abs_eq_natAbs_div, div_lt_iff₀ hDpos]
    calc (q.num.natAbs : ℚ) < (2 : ℚ) ^ ((bitLog q.num.natAbs : Int) + 1) := hN2
      _ = (2 : ℚ) ^ ((bitLog q.num.natAbs : Int) - (bitLog q.den : Int) + 1) *
            (2 : ℚ) ^ (bitLog q.den : Int) := by
          rw [← zpow_add₀ h2]
          congr 1
          ring
      _ ≤ (2 : ℚ) ^ ((bitLog q.num.natAbs : Int) - (bitLog q.den : Int) + 1) * (q.den : ℚ) :=
          mul_le_mul_of_nonneg_left hD1 (by positivity)
  unfold floorLog2
  simp only [pow2_eq_zpow]
  split_ifs with hk
  · exact ⟨hk, hhigh⟩
  · refine ⟨hlow, ?_⟩
    rw [sub_add_cancel]
    exact not_le.mp hk

/-- The integer `roundNearestEven x` is within one half of `x`. -/
theorem roundNearestEven_near (x : ℚ) : |(roundNearestEven x : ℚ) - x| ≤ 1 / 2 := by
  have h1 := Int.floor_le x
  have h2 := Int.lt_floor_add_one x
  unfold roundNearestEven
  simp only
  split_ifs with ha hb hc
  · rw [abs_le]
    constructor <;> linarith
  · rw [abs_le]
    push_cast
    constructor <;> linarith
  · rw [abs_le]
    constructor <;> linarith
  · rw [abs_le]
    push_cast
    constructor <;> linarith

/-- Halfway between two integers `roundNearestEven` picks the even one. -/
theorem roundNearestEven_tie (x : ℚ) (h : x - ⌊x⌋ = 1 / 2) : roundNearestEven x % 2 = 0 := by
  unfold roundNearestEven
  simp only [h, lt_self_iff_false, if_false]
  split_ifs with hc
  · exact hc
  · omega

/-- A finite result of `round` is a multiple `m * ulp q` of the spacing around `q`
with a significand of at most 24 bits, and no further than half the spacing from `q`. -/
theorem round_spec (q r : ℚ) (h : round q = fin r) :
    ∃ m : Int, r = (m : ℚ) * ulp q ∧ |m| ≤ 2 ^ 24 ∧ |r - q| ≤ ulp q / 2 := by
  have hu := ulp_pos q
  by_cases h0 : q = 0
  · subst h0
    simp only [round, if_true, fin.injEq] at h
    subst h
    exact ⟨0, by simp, by simp, by simpa using (half_pos hu).le⟩
  · simp only [round, h0, if_false] at h
    split_ifs at h with hbig
    simp only [fin.injEq] at h
    refine ⟨roundNearestEven (q / ulp q), h.symm, ?_, ?_⟩
    · have hnear := roundNearestEven_near (q / ulp q)
      have hbracket := (floorLog2_spec q h0).2
      have hgrid : (2 : ℚ) ^ (floorLog2 q - 23) ≤ ulp q := by
        unfold ulp
        rw [pow2_eq_zpow]
        exact zpow_le_zpow_right₀ (by norm_num) (by have := le_max_left (floorLog2 q) (-126); omega)
      have hx : |q / ulp q| < 2 ^ 24 := by
        rw [abs_div, abs_of_pos hu, div_lt_iff₀ hu]
        calc |q| < (2 : ℚ) ^ (floorLog2 q + 1) := hbracket
          _ = 2 ^ 24 * (2 : ℚ) ^ (floorLog2 q - 23) := by
              rw [show (2 : ℚ) ^ 24 = (2 : ℚ) ^ (24 : Int) by norm_cast,
                ← zpow_add₀ (by norm_num : (2 : ℚ) ≠ 0)]
              congr 1
              ring
          _ ≤ 2 ^ 24 * ulp q := mul_le_mul_of_nonneg_left hgrid (by positivity)
      have hm : |(roundNearestEven (q / ulp q) : ℚ)| < 2 ^ 24 + 1 := by
        calc |(roundNearestEven (q / ulp q) : ℚ)|
            = |((roundNearestEven (q / ulp q) : ℚ) - q / ulp q) + q / ulp q| := by ring_nf
          _ ≤ |(roundNearestEven (q / ulp q) : ℚ) - q / ulp q| + |q / ulp q| := abs_add _ _
          _ < 2 ^ 24 + 1 := by linarith
      have hmz : |roundNearestEven (q / ulp q)| < 2 ^ 24 + 1 := by exact_mod_cast hm
      omega
    · rw [← h]
      have hnear := roundNearestEven_near (q / ulp q)
      have hsplit : (roundNearestEven (q / ulp q) : ℚ) * ulp q - q =
          ((roundNearestEven (q / ulp q) : ℚ) - q / ulp q) * ulp q := by
        field_simp
      rw [hsplit, abs_mul, abs_of_pos hu]
      calc |(roundNearestEven (q / ulp q) : ℚ) - q / ulp q| * ulp q ≤ 1 / 2 * ulp q :=
            mul_le_mul_of_nonneg_right hnear hu.le
        _ = ulp q / 2 := by ring

end F32

/-! ## Order facts of the two arithmetics -/

namespace F32

theorem roundNearestEven_nonneg (x : ℚ) (hx : 0 ≤ x) : 0 ≤ roundNearestEven x := by
  have hfloor : (0 : Int) ≤ ⌊x⌋ := Int.floor_nonneg.mpr hx
  unfold roundNearestEven
  simp only
  split_ifs <;> omega

theorem le_fin_iff (a b : ℚ) : (fin a ≤ fin b) ↔ a ≤ b := by
  show le (fin a) (fin b) = true ↔ a ≤ b
  simp [le]

theorem zero_le_iff (a : F32) : (0 : F32) ≤ a ↔ a = inf false ∨ ∃ q : ℚ, 0 ≤ q ∧ a = fin q := by
  show le (fin 0) a = true ↔ _
  cases a with
  | nan => simp [le]
  | inf s => cases s <;> simp [le]
  | fin q => simp [le]

theorem round_nonneg (q : ℚ) (hq : 0 ≤ q) : (0 : F32) ≤ round q := by
  rw [zero_le_iff]
  unfold round
  by_cases h0 : q = 0
  · right
    exact ⟨0, le_refl _, by simp [h0]⟩
  · simp only [h0, if_false]
    have hr : (0 : ℚ) ≤ (roundNearestEven (q / ulp q) : ℚ) * ulp q :=
      mul_nonneg (by exact_mod_cast roundNearestEven_nonneg _ (div_nonneg hq (ulp_pos q).le))
        (ulp_pos q).le
    split_ifs with hbig
    · left
      simp [not_lt.mpr hq]
    · right
      exact ⟨_, hr, rfl⟩

theorem floatOrder : FloatOrder F32 where
  zero_le_zero := (le_fin_iff 0 0).mpr (le_refl _)
  add_nonneg := by
    intro a b ha hb
    rcases (zero_le_iff a).mp ha with rfl | ⟨p, hp, rfl⟩ <;>
      rcases (zero_le_iff b).mp hb with rfl | ⟨q, hq, rfl⟩
    · exact (zero_le_iff _).mpr (Or.inl rfl)
    · exact (zero_le_iff _).mpr (Or.inl rfl)
    · exact (zero_le_iff _).mpr (Or.inl rfl)
    · exact round_nonneg (p + q) (by positivity)
  lt_of_not_le := by
    intro a b ha hb hnot
    rcases (zero_le_iff a).mp ha with rfl | ⟨p, hp, rfl⟩
    · cases b with
      | nan => exact absurd hb (by show ¬ lt (fin 0) nan = true; simp [lt])
      | inf s => 
        cases s
        · exact absurd (show le (inf false) (inf false) = true by simp [le]) hnot
        · exact absurd hb (by show ¬ lt (fin 0) (inf true) = true; simp [lt])
      | fin q => exact absurd (show le (fin q) (inf false) = true by simp [le]) hnot
    · cases b with
      | nan => exact absurd hb (by show ¬ lt (fin 0) nan = true; simp [lt])
      | inf s =>
        cases s
        · show lt (fin p) (inf false) = true
          simp [lt]
        · exact absurd hb (by show ¬ lt (fin 0) (inf true) = true; simp [lt])
      | fin q =>
        have hqp : ¬ q ≤ p := fun h => hnot ((le_fin_iff q p).mpr h)
        show lt (fin p) (fin q) = true
        simpa [lt] using hqp
  frameTime_pos := by decide!

end F32

theorem floatOrder_rat : FloatOrder ℚ where
  zero_le_zero := le_refl _
  add_nonneg := fun _ _ ha hb => add_nonneg ha hb
  lt_of_not_le := fun _ _ _ _ h => not_le.mp h
  frameTime_pos := by norm_num

/-! ## `Sprite::update` -/

section UpdateFacts
variable {F : Type} [Zero F] [Add F] [LE F] [∀ a b : F, Decidable (a ≤ b)]

theorem update_of_idle (s : Sprite F) (deltaTime : F) (h : s.moving = false) :
    s.update deltaTime = { s with frame := { s.frame with x := 0 }, timer := 0 } := by
  simp [Sprite.update, h]

theorem update_of_advance (s : Sprite F) (deltaTime : F) (h : s.moving = true)
    (hge : s.frameTime ≤ s.timer + deltaTime) :
    s.update deltaTime =
      { s with timer := 0, frame := { s.frame with x := Int.tmod (s.frame.x + 1) s.maxFrames } } := by
  simp [Sprite.update, h, hge]

theorem update_of_wait (s : Sprite F) (deltaTime : F) (h : s.moving = true)
    (hlt : ¬ s.frameTime ≤ s.timer + deltaTime) :
    s.update deltaTime = { s with timer := s.timer + deltaTime } := by
  simp [Sprite.update, h, hlt]

/-- The method `Sprite::update` writes only `frame.x` and `timer`. -/
theorem update_frame (s : Sprite F) (deltaTime : F) :
    (s.update deltaTime).texture = s.texture ∧
    (s.update deltaTime).position = s.position ∧
    (s.update deltaTime).frame.y = s.frame.y ∧
    (s.update deltaTime).maxFrames = s.maxFrames ∧
    (s.update deltaTime).frameTime = s.frameTime ∧
    (s.update deltaTime).direction = s.direction ∧
    (s.update deltaTime).moving = s.moving := by
  cases hm : s.moving
  · rw [update_of_idle s deltaTime hm]
    simp [hm]
  · by_cases hge : s.frameTime ≤ s.timer + deltaTime
    · rw [update_of_advance s deltaTime hm hge]
      simp [hm]
    · rw [update_of_wait s deltaTime hm hge]
      simp [hm]

/-- The remainder `(x + 1) % m` of C++ lies in `[0, m)` when `0 ≤ x < m`. -/
theorem tmod_succ_range (x m : Int) (h0 : 0 ≤ x) (hm : x < m) :
    0 ≤ Int.tmod (x + 1) m ∧ Int.tmod (x + 1) m < m := by
  have hx : (0 : Int) ≤ x + 1 := by omega
  have hmpos : (0 : Int) ≤ m := by omega
  rw [Int.tmod_eq_emod hx hmpos]
  exact ⟨Int.emod_nonneg _ (by omega), Int.emod_lt_of_pos _ (by omega)⟩

theorem update_range (s : Sprite F) (deltaTime : F)
    (h : 0 ≤ s.frame.x ∧ s.frame.x < s.maxFrames) :
    0 ≤ (s.update deltaTime).frame.x ∧ (s.update deltaTime).frame.x < (s.update deltaTime).maxFrames := by
  cases hm : s.moving
  · rw [update_of_idle s deltaTime hm]
    simp only [le_refl, true_and]
    omega
  · by_cases hge : s.frameTime ≤ s.timer + deltaTime
    · rw [update_of_advance s deltaTime hm hge]
      exact tmod_succ_range s.frame.x s.maxFrames h.1 h.2
    · rw [update_of_wait s deltaTime hm hge]
      exact h

/-- Claim C1. While `moving` is set, `Sprite::update` resets `timer` to 0 and sets
`frame.x` to `(frame.x + 1) % maxFrames` when `timer + deltaTime >= frameTime`,
and otherwise stores `timer + deltaTime` and keeps `frame.x`.  The C++ remainder
is the mathematical one for the non-negative indices of an animation, and with
`maxFrames = 4` an index of 3 wraps to 0.  This holds for every `deltaTime`, not
only the non-negative ones, and in every arithmetic. -/
theorem update_moving (s : Sprite F) (deltaTime : F) (h : s.moving = true) :
    (s.frameTime ≤ s.timer + deltaTime →
      (s.update deltaTime).timer = 0 ∧
      (s.update deltaTime).frame.x = Int.tmod (s.frame.x + 1) s.maxFrames ∧
      (0 ≤ s.frame.x → 0 < s.maxFrames →
        (s.update deltaTime).frame.x = (s.frame.x + 1) % s.maxFrames) ∧
      (s.frame.x = 3 → s.maxFrames = 4 → (s.update deltaTime).frame.x = 0)) ∧
    (¬ s.frameTime ≤ s.timer + deltaTime →
      (s.update deltaTime).timer = s.timer + deltaTime ∧
      (s.update deltaTime).frame.x = s.frame.x) := by
  constructor
  · intro hge
    rw [update_of_advance s deltaTime h hge]
    refine ⟨rfl, rfl, ?_, ?_⟩
    · intro h0 hm
      exact Int.tmod_eq_emod (by omega) (by omega)
    · intro h3 h4
      simp only [h3, h4]
      decide
  · intro hlt
    rw [update_of_wait s deltaTime h hlt]
    exact ⟨rfl, rfl⟩

/-- Claim C2. While `moving` is clear, `Sprite::update` sets `frame.x` and `timer`
to 0, whatever they were and whatever `deltaTime` is. -/
theorem update_idle (s : Sprite F) (deltaTime : F) (h : s.moving = false) :
    (s.update deltaTime).frame.x = 0 ∧ (s.update deltaTime).timer = 0 := by
  rw [update_of_idle s deltaTime h]
  exact ⟨rfl, rfl⟩

end UpdateFacts

/-- An instance of `update_moving`: frame 3 of 4 with 0.10 s on the timer
advances to frame 0 after another 0.05 s. -/
theorem update_moving_witness :
    sampleWalking.moving = true ∧ sampleWalking.frameTime ≤ sampleWalking.timer + 1 / 20 ∧
      (sampleWalking.update (1 / 20)).timer = 0 ∧ (sampleWalking.update (1 / 20)).frame.x = 0 :=
  have hge : sampleWalking.frameTime ≤ sampleWalking.timer + 1 / 20 := by
    norm_num [sampleWalking]
  have key := (update_moving sampleWalking (1 / 20) rfl).1 hge
  ⟨rfl, hge, key.1, key.2.2.2 rfl rfl⟩

/-- An instance of `update_idle`: the idle sample is back on frame 0 with an empty
timer. -/
theorem update_idle_witness :
    sampleIdle.moving = false ∧
      (sampleIdle.update (1 / 20)).frame.x = 0 ∧ (sampleIdle.update (1 / 20)).timer = 0 :=
  ⟨rfl, update_idle sampleIdle (1 / 20) rfl⟩

/-! ## The keyboard block and the render loop -/

section InputFacts
variable {F : Type} [Add F] [Sub F] [Mul F]

/-- The keyboard block writes only `position`, `frame.y` and `moving`. -/
theorem mainInput_frame (speed deltaTime : F) (keys : Keys) (s : Sprite F) :
    (mainInput speed deltaTime keys s).texture = s.texture ∧
    (mainInput speed deltaTime keys s).frame.x = s.frame.x ∧
    (mainInput speed deltaTime keys s).maxFrames = s.maxFrames ∧
    (mainInput speed deltaTime keys s).frameTime = s.frameTime ∧
    (mainInput speed deltaTime keys s).timer = s.timer ∧
    (mainInput speed deltaTime keys s).direction = s.direction := by
  rcases keys with ⟨a, d, w, z⟩
  cases a <;> cases d <;> cases w <;> cases z <;> simp [mainInput]

theorem mainInput_moving (speed deltaTime : F) (keys : Keys) (s : Sprite F) :
    (mainInput speed deltaTime keys s).moving =
      (keys.keyA || keys.keyD || keys.keyW || keys.keyS) := by
  rcases keys with ⟨a, d, w, z⟩
  cases a <;> cases d <;> cases w <;> cases z <;> rfl

theorem mainInput_no_key (speed deltaTime : F) (s : Sprite F) :
    mainInput speed deltaTime ⟨false, false, false, false⟩ s = { s with moving := false } :=
  rfl

end InputFacts

section LoopFacts
variable {F : Type} [Zero F] [Add F] [Sub F] [Mul F] [LE F] [∀ a b : F, Decidable (a ≤ b)]

theorem mainIteration_range (speed : F) (s : Sprite F) (input : Keys × F)
    (h : 0 ≤ s.frame.x ∧ s.frame.x < s.maxFrames) :
    0 ≤ (mainIteration speed s input).frame.x ∧
      (mainIteration speed s input).frame.x < (mainIteration speed s input).maxFrames := by
  have hin := mainInput_frame speed input.2 input.1 s
  exact update_range _ _ (by rw [hin.2.1, hin.2.2.1]; exact h)

theorem mainIteration_frame (speed : F) (s : Sprite F) (input : Keys × F) :
    (mainIteration speed s input).maxFrames = s.maxFrames ∧
      (mainIteration speed s input).frameTime = s.frameTime := by
  have hin := mainInput_frame speed input.2 input.1 s
  have hup := update_frame (mainInput speed input.2 input.1 s) input.2
  exact ⟨hup.2.2.2.1.trans hin.2.2.1, hup.2.2.2.2.1.trans hin.2.2.2.1⟩

theorem mainLoop_range (speed : F) (inputs : List (Keys × F)) (s : Sprite F)
    (h : 0 ≤ s.frame.x ∧ s.frame.x < s.maxFrames) :
    0 ≤ (mainLoop speed s inputs).frame.x ∧
      (mainLoop speed s inputs).frame.x < (mainLoop speed s inputs).maxFrames := by
  induction inputs generalizing s with
  | nil => exact h
  | cons input rest ih => exact ih (mainIteration speed s input) (mainIteration_range speed s input h)

theorem mainLoop_frame (speed : F) (inputs : List (Keys × F)) (s : Sprite F) :
    (mainLoop speed s inputs).maxFrames = s.maxFrames ∧
      (mainLoop speed s inputs).frameTime = s.frameTime := by
  induction inputs generalizing s with
  | nil => exact ⟨rfl, rfl⟩
  | cons input rest ih =>
    have hstep := mainIteration_frame speed s input
    have hrest := ih (mainIteration speed s input)
    exact ⟨hrest.1.trans hstep.1, hrest.2.trans hstep.2⟩

/-- Claim C3. In every run of the render loop from the constructed sprite, whatever
keys are held and whatever `deltaTime` each iteration measures, the frame index
satisfies `0 <= frame.x < maxFrames` with `maxFrames = 4`; and `Sprite::update`
preserves `0 <= frame.x < maxFrames` from any state. -/
theorem frame_index_in_range [OfScientific F] (speed : F) (tex : Nat) (pos : Vec2 F)
    (inputs : List (Keys × F)) :
    (0 ≤ (mainLoop speed (Sprite.ctor tex pos) inputs).frame.x ∧
      (mainLoop speed (Sprite.ctor tex pos) inputs).frame.x <
        (mainLoop speed (Sprite.ctor tex pos) inputs).maxFrames ∧
      (mainLoop speed (Sprite.ctor tex pos) inputs).maxFrames = 4) ∧
    (∀ (s : Sprite F) (deltaTime : F), 0 ≤ s.frame.x ∧ s.frame.x < s.maxFrames →
      0 ≤ (s.update deltaTime).frame.x ∧
        (s.update deltaTime).frame.x < (s.update deltaTime).maxFrames) := by
  have hrun := mainLoop_range speed inputs (Sprite.ctor tex pos) (by simp [Sprite.ctor])
  exact ⟨⟨hrun.1, hrun.2, (mainLoop_frame speed inputs (Sprite.ctor tex pos)).1⟩,
    fun s deltaTime h => update_range s deltaTime h⟩

end LoopFacts

/-- An instance of `frame_index_in_range`: the walking sample is on frame 3 of 4,
and the call that advances it lands on a frame inside the row again. -/
theorem frame_index_in_range_witness :
    (0 ≤ sampleWalking.frame.x ∧ sampleWalking.frame.x < sampleWalking.maxFrames) ∧
      (0 ≤ (sampleWalking.update (1 / 20)).frame.x ∧
        (sampleWalking.update (1 / 20)).frame.x < (sampleWalking.update (1 / 20)).maxFrames) :=
  have h : 0 ≤ sampleWalking.frame.x ∧ sampleWalking.frame.x < sampleWalking.maxFrames := by
    decide
  ⟨h, (frame_index_in_range (100 : ℚ) 1 ⟨368, 268⟩ []).2 sampleWalking (1 / 20) h⟩

section MoreInputFacts
variable {F : Type} [Add F] [Sub F] [Mul F]

/-- Claim C5. One pass of the keyboard block with exactly one movement key held
moves the position by `speed * deltaTime` along that key's axis and leaves the
other coordinate alone (A: `x - speed * deltaTime`, D: `x + speed * deltaTime`,
W: `y + speed * deltaTime`, S: `y - speed * deltaTime`), stores the key's row in
`frame.y` (D 0, A 1, W 2, S 3) and sets `moving`.  In exact arithmetic with
`speed * deltaTime > 0` the coordinate strictly decreases for A and S and strictly
increases for D and W. -/
theorem single_key_movement (speed deltaTime : F) (s : Sprite F) :
    ((mainInput speed deltaTime ⟨true, false, false, false⟩ s).position.x =
        s.position.x - speed * deltaTime ∧
      (mainInput speed deltaTime ⟨true, false, false, false⟩ s).position.y = s.position.y ∧
      (mainInput speed deltaTime ⟨true, false, false, false⟩ s).frame.y = 1 ∧
      (mainInput speed deltaTime ⟨true, false, false, false⟩ s).moving = true) ∧
    ((mainInput speed deltaTime ⟨false, true, false, false⟩ s).position.x =
        s.position.x + speed * deltaTime ∧
      (mainInput speed deltaTime ⟨false, true, false, false⟩ s).position.y = s.position.y ∧
      (mainInput speed deltaTime ⟨false, true, false, false⟩ s).frame.y = 0 ∧
      (mainInput speed deltaTime ⟨false, true, false, false⟩ s).moving = true) ∧
    ((mainInput speed deltaTime ⟨false, false, true, false⟩ s).position.y =
        s.position.y + speed * deltaTime ∧
      (mainInput speed deltaTime ⟨false, false, true, false⟩ s).position.x = s.position.x ∧
      (mainInput speed deltaTime ⟨false, false, true, false⟩ s).frame.y = 2 ∧
      (mainInput speed deltaTime ⟨false, false, true, false⟩ s).moving = true) ∧
    ((mainInput speed deltaTime ⟨false, false, false, true⟩ s).position.y =
        s.position.y - speed * deltaTime ∧
      (mainInput speed deltaTime ⟨false, false, false, true⟩ s).position.x = s.position.x ∧
      (mainInput speed deltaTime ⟨false, false, false, true⟩ s).frame.y = 3 ∧
      (mainInput speed deltaTime ⟨false, false, false, true⟩ s).moving = true) ∧
    (∀ (v t : ℚ) (r : Sprite ℚ), 0 < v * t →
      (mainInput v t ⟨true, false, false, false⟩ r).position.x < r.position.x ∧
      r.position.x < (mainInput v t ⟨false, true, false, false⟩ r).position.x ∧
      r.position.y < (mainInput v t ⟨false, false, true, false⟩ r).position.y ∧
      (mainInput v t ⟨false, false, false, true⟩ r).position.y < r.position.y) := by
  refine ⟨⟨rfl, rfl, rfl, rfl⟩, ⟨rfl, rfl, rfl, rfl⟩, ⟨rfl, rfl, rfl, rfl⟩, ⟨rfl, rfl, rfl, rfl⟩, ?_⟩
  intro v t r hpos
  refine ⟨?_, ?_, ?_, ?_⟩
  · show r.position.x - v * t < r.position.x
    linarith
  · show r.position.x < r.position.x + v * t
    linarith
  · show r.position.y < r.position.y + v * t
    linarith
  · show r.position.y - v * t < r.position.y
    linarith

/-- Claim C6. The `moving` flag that the keyboard block hands to `update` is set
exactly when one of the four keys is held in this iteration: it is the
disjunction of the four key states, the same for every previous sprite state,
speed and `deltaTime`. -/
theorem moving_level_triggered (speed deltaTime : F) (keys : Keys) (s : Sprite F) :
    ((mainInput speed deltaTime keys s).moving = true ↔
      (keys.keyA = true ∨ keys.keyD = true ∨ keys.keyW = true ∨ keys.keyS = true)) ∧
    (∀ (speed1 deltaTime1 : F) (s1 : Sprite F),
      (mainInput speed1 deltaTime1 keys s1).moving = (mainInput speed deltaTime keys s).moving) := by
  constructor
  · rw [mainInput_moving]
    simp [or_assoc]
  · intro speed1 deltaTime1 s1
    rw [mainInput_moving, mainInput_moving]

/-- Claim C9. The keyboard block does not cancel opposite keys.  With A and D both
held, `x` becomes `(x - speed * deltaTime) + speed * deltaTime` and `moving` is
set, whatever W and S are; with only A and D held `y` is untouched and the row
is that of D, 0.  With W and S both held, `y` becomes
`(y + speed * deltaTime) - speed * deltaTime`, `moving` is set and the row is that
of S, 3, whatever A and D are; with only W and S held `x` is untouched.  In exact
arithmetic both coordinates end where they started. -/
theorem opposite_keys_both_apply (speed deltaTime : F) (s : Sprite F) :
    (∀ w z : Bool,
      (mainInput speed deltaTime ⟨true, true, w, z⟩ s).position.x =
          s.position.x - speed * deltaTime + speed * deltaTime ∧
        (mainInput speed deltaTime ⟨true, true, w, z⟩ s).moving = true) ∧
    ((mainInput speed deltaTime ⟨true, true, false, false⟩ s).position.y = s.position.y ∧
      (mainInput speed deltaTime ⟨true, true, false, false⟩ s).frame.y = 0) ∧
    (∀ a d : Bool,
      (mainInput speed deltaTime ⟨a, d, true, true⟩ s).position.y =
          s.position.y + speed * deltaTime - speed * deltaTime ∧
        (mainInput speed deltaTime ⟨a, d, true, true⟩ s).moving = true ∧
        (mainInput speed deltaTime ⟨a, d, true, true⟩ s).frame.y = 3) ∧
    ((mainInput speed deltaTime ⟨false, false, true, true⟩ s).position.x = s.position.x) ∧
    (∀ (v t : ℚ) (r : Sprite ℚ),
      (mainInput v t ⟨true, true, false, false⟩ r).position = r.position ∧
      (mainInput v t ⟨false, false, true, true⟩ r).position = r.position) := by
  refine ⟨?_, ⟨rfl, rfl⟩, ?_, rfl, ?_⟩
  · intro w z
    cases w <;> cases z <;> exact ⟨rfl, rfl⟩
  · intro a d
    cases a <;> cases d <;> exact ⟨rfl, rfl, rfl⟩
  · intro v t r
    constructor
    · show (⟨r.position.x - v * t + v * t, r.position.y⟩ : Vec2 ℚ) = r.position
      rw [sub_add_cancel]
    · show (⟨r.position.x, r.position.y + v * t - v * t⟩ : Vec2 ℚ) = r.position
      rw [add_sub_cancel_right]

end MoreInputFacts

/-- An instance of `single_key_movement`: at speed 100 and a 0.02 s frame the four
keys move the walking sample by 2 from (368, 268). -/
theorem single_key_movement_witness :
    (0 : ℚ) < 100 * (1 / 50) ∧
      (mainInput 100 (1 / 50) ⟨true, false, false, false⟩ sampleWalking).position.x <
        sampleWalking.position.x ∧
      (mainInput 100 (1 / 50) ⟨true, false, false, false⟩ sampleWalking).position = ⟨366, 268⟩ ∧
      (mainInput 100 (1 / 50) ⟨false, false, false, true⟩ sampleWalking).position = ⟨368, 266⟩ :=
  have hpos : (0 : ℚ) < 100 * (1 / 50) := by norm_num
  ⟨hpos, ((single_key_movement (100 : ℚ) (1 / 50) sampleWalking).2.2.2.2 100 (1 / 50)
      sampleWalking hpos).1, by norm_num [mainInput, sampleWalking],
    by norm_num [mainInput, sampleWalking]⟩

section IdleFacts
variable {F : Type} [Zero F] [Add F] [Sub F] [Mul F] [LE F] [∀ a b : F, Decidable (a ≤ b)]

/-- Claim C7. A loop iteration in which no movement key is held (keyboard block,
then `update`) leaves the row `frame.y`, the `direction` member and the position
as they were and ends with `moving` clear; and `Sprite::update` on its own never
changes `frame.y`, `direction` or the position, moving or not. -/
theorem direction_persists_when_idle (speed deltaTime : F) (s : Sprite F) :
    ((mainIteration speed s (⟨false, false, false, false⟩, deltaTime)).frame.y = s.frame.y ∧
      (mainIteration speed s (⟨false, false, false, false⟩, deltaTime)).direction = s.direction ∧
      (mainIteration speed s (⟨false, false, false, false⟩, deltaTime)).position = s.position ∧
      (mainIteration speed s (⟨false, false, false, false⟩, deltaTime)).moving = false) ∧
    (∀ (r : Sprite F) (t : F),
      (r.update t).frame.y = r.frame.y ∧ (r.update t).direction = r.direction ∧
        (r.update t).position = r.position) := by
  constructor
  · have hup := update_frame (mainInput speed deltaTime ⟨false, false, false, false⟩ s) deltaTime
    rw [mainInput_no_key] at hup
    exact ⟨hup.2.2.1, hup.2.2.2.2.2.1, hup.2.1, hup.2.2.2.2.2.2⟩
  · intro r t
    have hup := update_frame r t
    exact ⟨hup.2.2.1, hup.2.2.2.2.2.1, hup.2.1⟩

end IdleFacts

/-! ## `Sprite::draw` -/

section DrawFacts
variable {F : Type}

theorem drawStep_apply (texCoords : Fin 8 → F) (vertices : Fin 20 → F) (i : Fin 4) (k : Fin 20) :
    drawStep texCoords vertices i k =
      if k.val = i.val * 5 + 4 then texCoords ⟨i.val * 2 + 1, by omega⟩
      else if k.val = i.val * 5 + 3 then texCoords ⟨i.val * 2, by omega⟩
      else vertices k := by
  simp [drawStep, Function.update, Fin.ext_iff]

variable [OfScientific F] [Add F] [Mul F] [Div F] [IntCast F]

theorem draw_unfold (s : Sprite F) (vertices : Fin 20 → F) :
    s.draw vertices =
      drawStep s.texCoords (drawStep s.texCoords (drawStep s.texCoords
        (drawStep s.texCoords vertices ⟨0, by omega⟩) ⟨1, by omega⟩) ⟨2, by omega⟩) ⟨3, by omega⟩ :=
  rfl

/-- Vertex `i` of the buffer receives `texCoords[2 i]` and `texCoords[2 i + 1]` in
its two texture slots and keeps its three position slots. -/
theorem draw_vertex (s : Sprite F) (vertices : Fin 20 → F) (i : Fin 4) :
    s.draw vertices ⟨i.val * 5 + 3, by omega⟩ = s.texCoords ⟨i.val * 2, by omega⟩ ∧
    s.draw vertices ⟨i.val * 5 + 4, by omega⟩ = s.texCoords ⟨i.val * 2 + 1, by omega⟩ ∧
    ∀ j : Fin 3,
      s.draw vertices ⟨i.val * 5 + j.val, by omega⟩ = vertices ⟨i.val * 5 + j.val, by omega⟩ := by
  rw [draw_unfold]
  obtain ⟨i, hi⟩ := i
  interval_cases i
  all_goals
    refine ⟨?_, ?_, ?_⟩
    · simp only [drawStep_apply, Fin.val_mk]
      simp
    · simp only [drawStep_apply, Fin.val_mk]
      simp
    · rintro ⟨j, hj⟩
      interval_cases j <;> simp only [drawStep_apply, Fin.val_mk] <;> simp

/-- Claim C4. With `cellSize = 1.0f / 4.0f`, `u = frame.x * cellSize` and
`v = frame.y * cellSize`, `Sprite::draw` stores the pairs `(u, v + cellSize)`,
`(u + cellSize, v + cellSize)`, `(u + cellSize, v)`, `(u, v)` in the texture
slots (offsets 3 and 4) of vertices 0, 1, 2, 3 of the buffer, in that order, and
leaves the position slots alone.  In exact arithmetic `cellSize` is `1 / 4` and
the pairs are the corners of the cell in column `frame.x` and row `frame.y` of the
4 by 4 grid, from `(frame.x / 4, frame.y / 4)` to
`((frame.x + 1) / 4, (frame.y + 1) / 4)`. -/
theorem draw_texture_coordinates (s : Sprite F) (vertices : Fin 20 → F) :
    (s.draw vertices 3 = (s.frame.x : F) * (1.0 / 4.0) ∧
      s.draw vertices 4 = (s.frame.y : F) * (1.0 / 4.0) + 1.0 / 4.0) ∧
    (s.draw vertices 8 = (s.frame.x : F) * (1.0 / 4.0) + 1.0 / 4.0 ∧
      s.draw vertices 9 = (s.frame.y : F) * (1.0 / 4.0) + 1.0 / 4.0) ∧
    (s.draw vertices 13 = (s.frame.x : F) * (1.0 / 4.0) + 1.0 / 4.0 ∧
      s.draw vertices 14 = (s.frame.y : F) * (1.0 / 4.0)) ∧
    (s.draw vertices 18 = (s.frame.x : F) * (1.0 / 4.0) ∧
      s.draw vertices 19 = (s.frame.y : F) * (1.0 / 4.0)) ∧
    (∀ i : Fin 4, ∀ j : Fin 3,
      s.draw vertices ⟨i.val * 5 + j.val, by omega⟩ = vertices ⟨i.val * 5 + j.val, by omega⟩) ∧
    ((1.0 : ℚ) / 4.0 = 1 / 4) ∧
    (∀ r : Sprite ℚ, r.texCoords =
      ![(r.frame.x : ℚ) / 4, ((r.frame.y : ℚ) + 1) / 4,
        ((r.frame.x : ℚ) + 1) / 4, ((r.frame.y : ℚ) + 1) / 4,
        ((r.frame.x : ℚ) + 1) / 4, (r.frame.y : ℚ) / 4,
        (r.frame.x : ℚ) / 4, (r.frame.y : ℚ) / 4]) := by
  have h0 := draw_vertex s vertices ⟨0, by omega⟩
  have h1 := draw_vertex s vertices ⟨1, by omega⟩
  have h2 := draw_vertex s vertices ⟨2, by omega⟩
  have h3 := draw_vertex s vertices ⟨3, by omega⟩
  refine ⟨⟨h0.1, h0.2.1⟩, ⟨h1.1, h1.2.1⟩, ⟨h2.1, h2.2.1⟩, ⟨h3.1, h3.2.1⟩,
    fun i => (draw_vertex s vertices i).2.2, by norm_num, ?_⟩
  intro r
  have hcell : (1.0 : ℚ) / 4.0 = 1 / 4 := by norm_num
  simp only [Sprite.texCoords, hcell]
  ring_nf

end DrawFacts

/-! ## The timer -/

section TimerFacts
variable {F : Type} [Zero F] [Add F] [LE F] [∀ a b : F, Decidable (a ≤ b)]

/-- Four calls `update(deltaTime)` from an empty timer, when the third sum is the
first to reach `frameTime`. -/
theorem updates_four (s : Sprite F) (deltaTime : F) (hm : s.moving = true) (ht : s.timer = 0)
    (h1 : ¬ s.frameTime ≤ 0 + deltaTime) (h2 : ¬ s.frameTime ≤ 0 + deltaTime + deltaTime)
    (h3 : s.frameTime ≤ 0 + deltaTime + deltaTime + deltaTime) :
    ((s.updates deltaTime 1).timer = 0 + deltaTime ∧
      (s.updates deltaTime 2).timer = 0 + deltaTime + deltaTime ∧
      (s.updates deltaTime 3).timer = 0 ∧
      (s.updates deltaTime 4).timer = 0 + deltaTime) ∧
    ((s.updates deltaTime 1).frame.x = s.frame.x ∧
      (s.updates deltaTime 2).frame.x = s.frame.x ∧
      (s.updates deltaTime 3).frame.x = Int.tmod (s.frame.x + 1) s.maxFrames ∧
      (s.updates deltaTime 4).frame.x = Int.tmod (s.frame.x + 1) s.maxFrames) := by
  have e1 : s.updates deltaTime 1 = { s with timer := 0 + deltaTime } := by
    show s.update deltaTime = _
    rw [update_of_wait s deltaTime hm (by rw [ht]; exact h1), ht]
  have e2 : s.updates deltaTime 2 = { s with timer := 0 + deltaTime + deltaTime } := by
    show (s.updates deltaTime 1).update deltaTime = _
    rw [e1, update_of_wait { s with timer := 0 + deltaTime } deltaTime hm h2]
  have e3 : s.updates deltaTime 3 =
      { s with timer := 0, frame := { s.frame with x := Int.tmod (s.frame.x + 1) s.maxFrames } } := by
    show (s.updates deltaTime 2).update deltaTime = _
    rw [e2, update_of_advance { s with timer := 0 + deltaTime + deltaTime } deltaTime hm h3]
  have e4 : s.updates deltaTime 4 =
      { s with
        timer := 0 + deltaTime
        frame := { s.frame with x := Int.tmod (s.frame.x + 1) s.maxFrames } } := by
    show (s.updates deltaTime 3).update deltaTime = _
    rw [e3, update_of_wait
      { s with timer := 0, frame := { s.frame with x := Int.tmod (s.frame.x + 1) s.maxFrames } }
      deltaTime hm h1]
  rw [e1, e2, e3, e4]
  exact ⟨⟨rfl, rfl, rfl, rfl⟩, ⟨rfl, rfl, rfl, rfl⟩⟩

variable [LT F] [OfScientific F]

theorem update_timer_bound (laws : FloatOrder F) (s : Sprite F) (deltaTime : F)
    (hft : 0 < s.frameTime) (ht : 0 ≤ s.timer) (hdt : 0 ≤ deltaTime) :
    0 ≤ (s.update deltaTime).timer ∧ (s.update deltaTime).timer < s.frameTime := by
  cases hm : s.moving
  · rw [update_of_idle s deltaTime hm]
    exact ⟨laws.zero_le_zero, hft⟩
  · by_cases hge : s.frameTime ≤ s.timer + deltaTime
    · rw [update_of_advance s deltaTime hm hge]
      exact ⟨laws.zero_le_zero, hft⟩
    · rw [update_of_wait s deltaTime hm hge]
      have hsum := laws.add_nonneg s.timer deltaTime ht hdt
      exact ⟨hsum, laws.lt_of_not_le _ _ hsum hft hge⟩

end TimerFacts

section TimerLoopFacts
variable {F : Type} [Zero F] [Add F] [Sub F] [Mul F] [LE F] [∀ a b : F, Decidable (a ≤ b)]
  [LT F] [OfScientific F]

theorem mainIteration_timer_bound (laws : FloatOrder F) (speed : F) (s : Sprite F)
    (input : Keys × F) (hdt : 0 ≤ input.2)
    (h : 0 < s.frameTime ∧ 0 ≤ s.timer) :
    0 < (mainIteration speed s input).frameTime ∧ 0 ≤ (mainIteration speed s input).timer ∧
      (mainIteration speed s input).timer < (mainIteration speed s input).frameTime := by
  have hin := mainInput_frame speed input.2 input.1 s
  have hkeep := (mainIteration_frame speed s input).2
  have hup := update_timer_bound laws (mainInput speed input.2 input.1 s) input.2
    (by rw [hin.2.2.2.1]; exact h.1) (by rw [hin.2.2.2.2.1]; exact h.2) hdt
  rw [hin.2.2.2.1] at hup
  rw [hkeep]
  exact ⟨h.1, hup.1, hup.2⟩

theorem mainLoop_timer_bound (laws : FloatOrder F) (speed : F) (inputs : List (Keys × F))
    (s : Sprite F) (hdt : ∀ input ∈ inputs, 0 ≤ input.2)
    (h : 0 < s.frameTime ∧ 0 ≤ s.timer ∧ s.timer < s.frameTime) :
    0 < (mainLoop speed s inputs).frameTime ∧ 0 ≤ (mainLoop speed s inputs).timer ∧
      (mainLoop speed s inputs).timer < (mainLoop speed s inputs).frameTime := by
  induction inputs generalizing s with
  | nil => exact h
  | cons input rest ih =>
    have hstep := mainIteration_timer_bound laws speed s input
      (hdt input (List.mem_cons_self _ _)) ⟨h.1, h.2.1⟩
    exact ih (mainIteration speed s input) (fun i hi => hdt i (List.mem_cons_of_mem _ hi)) hstep

end TimerLoopFacts

/-- Claim C8. With `frameTime = 0.15`, an empty timer and `moving` set, four
consecutive calls `update(0.05)` leave the timer at 0.05, 0.10, 0 and 0.05, and
`frame.x` is unchanged after the first two calls, becomes
`(frame.x + 1) % maxFrames` in the third and stays there in the fourth.  This
holds in exact arithmetic and in binary32, where the literals are the rounded
ones and the third sum `0.05f + 0.05f + 0.05f` rounds to `0.15f` itself. -/
theorem timer_scenario :
    (∀ s : Sprite ℚ,
      ((s.scenarioStart.updates 0.05 1).timer = 0.05 ∧
        (s.scenarioStart.updates 0.05 2).timer = 0.10 ∧
        (s.scenarioStart.updates 0.05 3).timer = 0 ∧
        (s.scenarioStart.updates 0.05 4).timer = 0.05) ∧
      ((s.scenarioStart.updates 0.05 1).frame.x = s.frame.x ∧
        (s.scenarioStart.updates 0.05 2).frame.x = s.frame.x ∧
        (s.scenarioStart.updates 0.05 3).frame.x = Int.tmod (s.frame.x + 1) s.maxFrames ∧
        (s.scenarioStart.updates 0.05 4).frame.x = Int.tmod (s.frame.x + 1) s.maxFrames)) ∧
    (∀ s : Sprite F32,
      ((s.scenarioStart.updates 0.05 1).timer = 0.05 ∧
        (s.scenarioStart.updates 0.05 2).timer = 0.10 ∧
        (s.scenarioStart.updates 0.05 3).timer = 0 ∧
        (s.scenarioStart.updates 0.05 4).timer = 0.05) ∧
      ((s.scenarioStart.updates 0.05 1).frame.x = s.frame.x ∧
        (s.scenarioStart.updates 0.05 2).frame.x = s.frame.x ∧
        (s.scenarioStart.updates 0.05 3).frame.x = Int.tmod (s.frame.x + 1) s.maxFrames ∧
        (s.scenarioStart.updates 0.05 4).frame.x = Int.tmod (s.frame.x + 1) s.maxFrames)) ∧
    ((0 : F32) + 0.05 + 0.05 + 0.05 = 0.15) := by
  refine ⟨?_, ?_, by decide!⟩
  · intro s
    have h1 : ¬ s.scenarioStart.frameTime ≤ 0 + 0.05 := by
      show ¬ (0.15 : ℚ) ≤ 0 + 0.05
      norm_num
    have h2 : ¬ s.scenarioStart.frameTime ≤ 0 + 0.05 + 0.05 := by
      show ¬ (0.15 : ℚ) ≤ 0 + 0.05 + 0.05
      norm_num
    have h3 : s.scenarioStart.frameTime ≤ 0 + 0.05 + 0.05 + 0.05 := by
      show (0.15 : ℚ) ≤ 0 + 0.05 + 0.05 + 0.05
      norm_num
    have key := updates_four s.scenarioStart 0.05 rfl rfl h1 h2 h3
    have g1 : (0 : ℚ) + 0.05 = 0.05 := by norm_num
    have g2 : (0 : ℚ) + 0.05 + 0.05 = 0.10 := by norm_num
    rw [g2, g1] at key
    exact key
  · intro s
    have h1 : ¬ s.scenarioStart.frameTime ≤ 0 + 0.05 := by
      show ¬ (0.15 : F32) ≤ 0 + 0.05
      decide!
    have h2 : ¬ s.scenarioStart.frameTime ≤ 0 + 0.05 + 0.05 := by
      show ¬ (0.15 : F32) ≤ 0 + 0.05 + 0.05
      decide!
    have h3 : s.scenarioStart.frameTime ≤ 0 + 0.05 + 0.05 + 0.05 := by
      show (0.15 : F32) ≤ 0 + 0.05 + 0.05 + 0.05
      decide!
    have key := updates_four s.scenarioStart 0.05 rfl rfl h1 h2 h3
    have g1 : (0 : F32) + 0.05 = 0.05 := by decide!
    have g2 : (0 : F32) + 0.05 + 0.05 = 0.10 := by decide!
    rw [g2, g1] at key
    exact key

section TimerClaim
variable {F : Type} [Zero F] [Add F] [Sub F] [Mul F] [LE F] [∀ a b : F, Decidable (a ≤ b)]
  [LT F] [OfScientific F]

/-- Claim C10. In an arithmetic with the order facts `FloatOrder` (exact arithmetic
and binary32 both have them), `Sprite::update` called with `frameTime > 0`,
`timer >= 0` and `deltaTime >= 0` returns with `0 <= timer < frameTime`, moving or
idle; on a frame advance the timer is 0, so whatever `timer + deltaTime` exceeds
`frameTime` by is dropped; and the bound holds after every iteration of the render
loop run from the constructed sprite with non-negative `deltaTime`s. -/
theorem timer_bound (laws : FloatOrder F) :
    (∀ (s : Sprite F) (deltaTime : F), 0 < s.frameTime → 0 ≤ s.timer → 0 ≤ deltaTime →
      0 ≤ (s.update deltaTime).timer ∧
      (s.update deltaTime).timer < (s.update deltaTime).frameTime ∧
      (s.moving = true → s.frameTime ≤ s.timer + deltaTime → (s.update deltaTime).timer = 0)) ∧
    (∀ (speed : F) (tex : Nat) (pos : Vec2 F) (inputs : List (Keys × F)),
      (∀ input ∈ inputs, 0 ≤ input.2) →
      0 ≤ (mainLoop speed (Sprite.ctor tex pos) inputs).timer ∧
      (mainLoop speed (Sprite.ctor tex pos) inputs).timer <
        (mainLoop speed (Sprite.ctor tex pos) inputs).frameTime) := by
  constructor
  · intro s deltaTime hft ht hdt
    have hb := update_timer_bound laws s deltaTime hft ht hdt
    refine ⟨hb.1, ?_, ?_⟩
    · rw [(update_frame s deltaTime).2.2.2.2.1]
      exact hb.2
    · intro hm hge
      rw [update_of_advance s deltaTime hm hge]
  · intro speed tex pos inputs hdt
    exact (mainLoop_timer_bound laws speed inputs (Sprite.ctor tex pos) hdt
      ⟨laws.frameTime_pos, laws.zero_le_zero, laws.frameTime_pos⟩).2

end TimerClaim

/-- An instance of `timer_bound` in each arithmetic.  Exact: the walking sample
(0.10 s on the timer) called with 0.20 s ends with an empty timer, the excess
0.15 s dropped.  Binary32: the sample with `0.10f` on the timer called with
`0.05f` ends with an empty timer. -/
theorem timer_bound_witness :
    ((0 : ℚ) < sampleWalking.frameTime ∧ (0 : ℚ) ≤ sampleWalking.timer ∧ (0 : ℚ) ≤ 1 / 5 ∧
      sampleWalking.frameTime ≤ sampleWalking.timer + 1 / 5 ∧
      (sampleWalking.update (1 / 5)).timer = 0 ∧
      (sampleWalking.update (1 / 5)).timer < (sampleWalking.update (1 / 5)).frameTime) ∧
    ((0 : F32) < sampleBinary32.frameTime ∧ (0 : F32) ≤ sampleBinary32.timer ∧
      (0 : F32) ≤ 0.05 ∧ sampleBinary32.frameTime ≤ sampleBinary32.timer + 0.05 ∧
      (sampleBinary32.update 0.05).timer = 0 ∧
      (sampleBinary32.update 0.05).timer < (sampleBinary32.update 0.05).frameTime) :=
  have q1 : (0 : ℚ) < sampleWalking.frameTime := by norm_num [sampleWalking]
  have q2 : (0 : ℚ) ≤ sampleWalking.timer := by norm_num [sampleWalking]
  have q3 : (0 : ℚ) ≤ 1 / 5 := by norm_num
  have q4 : sampleWalking.frameTime ≤ sampleWalking.timer + 1 / 5 := by norm_num [sampleWalking]
  have b1 : (0 : F32) < sampleBinary32.frameTime := by decide!
  have b2 : (0 : F32) ≤ sampleBinary32.timer := by decide!
  have b3 : (0 : F32) ≤ 0.05 := by decide!
  have b4 : sampleBinary32.frameTime ≤ sampleBinary32.timer + 0.05 := by decide!
  have hq := (timer_bound floatOrder_rat).1 sampleWalking (1 / 5) q1 q2 q3
  have hb := (timer_bound F32.floatOrder).1 sampleBinary32 0.05 b1 b2 b3
  ⟨⟨q1, q2, q3, q4, hq.2.2 rfl q4, hq.2.1⟩, ⟨b1, b2, b3, b4, hb.2.2 rfl b4, hb.2.1⟩⟩

end AnimacaoSprites
